import Mathlib

/-!
Shallow embedding of `src/mikasa/io.py` (the memoizing artifact cache).

The Python module stores pickled values on a file system.  The embedding
models the file system explicitly: `FS β` keeps an association list from
path strings to stored serialized blobs (of an abstract type `β`) together
with the list of existing directories.  Pickle serialization of values of
type `α` is modelled by an abstract pair of functions `ser : α → β` and
`deser : β → α`; no round-trip law is assumed unless a theorem states it
as a hypothesis.  A producer (the decorated function) is a function
`func : γ → Except ε α`: it either returns a value or raises an exception
`e : ε`.  One call of the wrapped function (`run_func`) yields the
outcome, the final file-system state, and the list of arguments the
producer was invoked with during that call (used to count invocations).
Console printing (the `verbose` flag of `load_pickle`/`dump_pickle`) has
no effect on any state and is not modelled.
-/

set_option autoImplicit false

namespace Mikasa

variable {α β γ ε : Type}

/-- A file-system state: `files` associates a path with the serialized blob
stored in the file of that name, `dirs` lists the existing directories. -/
structure FS (β : Type) where
  files : List (String × β)
  dirs : List String
  deriving DecidableEq

/-- Storage-level errors raised by the OS file primitives
(`FileNotFoundError`, `IsADirectoryError`, `NotADirectoryError`). -/
inductive StorageErr where
  | fileNotFound (p : String)
  | isADirectory (p : String)
  | notADirectory (p : String)
  deriving DecidableEq

/-- An error escaping one call of the wrapped function: either a storage
error or an exception raised by the producer, passed through verbatim. -/
inductive Err (ε : Type) where
  | storage (s : StorageErr)
  | producer (e : ε)
  deriving DecidableEq

/-- Lookup of a path in the file table (first binding wins; on a real file
system paths are unique keys). -/
def lookupF (p : String) : List (String × β) → Option β
  | [] => none
  | (q, b) :: rest => if q = p then some b else lookupF p rest

/-- Writing a file: replace the binding of `p` in place if present,
otherwise append a new binding.  A whole-file replacement, never a partial
update. -/
def insertFile (p : String) (b : β) : List (String × β) → List (String × β)
  | [] => [(p, b)]
  | (q, c) :: rest => if q = p then (p, b) :: rest else (q, c) :: insertFile p b rest

/-- Model of `filepath.rsplit("/", 1)[0]` from io.py line 45: everything
before the last `'/'` of the string, or the whole string when it contains no
`'/'`. -/
def dstDir (s : String) : String :=
  if '/' ∈ s.data then String.mk ((s.data.reverse.dropWhile (fun c => c != '/')).tail.reverse)
  else s

/-- The directories `os.makedirs d` brings into existence: every prefix of
`d` that ends right before a `'/'`, and `d` itself. -/
def dirChain (d : String) : List String :=
  ((List.range d.data.length).filterMap fun i =>
    if d.data[i]? = some '/' then some (String.mk (d.data.take i)) else none) ++ [d]

/-- Model of `os.path.exists p`: `p` names an existing file or directory. -/
def os_path_exists (fs : FS β) (p : String) : Prop :=
  (lookupF p fs.files).isSome = true ∨ p ∈ fs.dirs

instance (fs : FS β) (p : String) : Decidable (os_path_exists fs p) :=
  decidable_of_iff ((lookupF p fs.files).isSome = true ∨ p ∈ fs.dirs) Iff.rfl

/-- Model of `os.makedirs d`: recursively create directory `d` and its missing
ancestors.  CPython's `os.makedirs("")` raises `FileNotFoundError`.
`run_func` only calls this under a `not os.path.exists` guard, so the
`FileExistsError` case cannot arise there and is not modelled. -/
def os_makedirs (d : String) (fs : FS β) : Except StorageErr (FS β) :=
  if d = "" then .error (.fileNotFound d)
  else .ok ⟨fs.files, dirChain d ++ fs.dirs⟩

/-- io.py lines 45-47: compute `dst_dir` and create it when absent. -/
def ensure_dir (d : String) (fs : FS β) : Except StorageErr (FS β) :=
  if os_path_exists fs d then .ok fs else os_makedirs d fs

/-- Model of `open(p, "rb")` + read: returns the stored blob; opening a directory
raises `IsADirectoryError`, a missing path raises `FileNotFoundError`. -/
def readFile (fs : FS β) (p : String) : Except StorageErr β :=
  match lookupF p fs.files with
  | some b => .ok b
  | none => if p ∈ fs.dirs then .error (.isADirectory p) else .error (.fileNotFound p)

/-- Model of `open(p, "wb")` + write of blob `b`: fails when `p` is an existing
directory (`IsADirectoryError`) or when the path component before the last
`'/'` exists as a file (`NotADirectoryError`) or names no directory
(`FileNotFoundError`); otherwise replaces the whole file content. -/
def writeFile (fs : FS β) (p : String) (b : β) : Except StorageErr (FS β) :=
  if p ∈ fs.dirs then .error (.isADirectory p)
  else if (lookupF (dstDir p) fs.files).isSome then .error (.notADirectory p)
  else if dstDir p ≠ p ∧ dstDir p ∉ fs.dirs then .error (.fileNotFound p)
  else .ok ⟨insertFile p b fs.files, fs.dirs⟩

/-- io.py lines 9-13 (`load_pickle`): open the file and deserialize its
content.  The `verbose` print is a console effect and is not modelled. -/
def load_pickle (deser : β → α) (filepath : String) (fs : FS β) : Except StorageErr α :=
  (readFile fs filepath).map deser

/-- io.py lines 16-20 (`dump_pickle`): serialize `data` and write it to
`filepath`, replacing the previous content wholesale. -/
def dump_pickle (ser : α → β) (data : α) (filepath : String) (fs : FS β) :
    Except StorageErr (FS β) :=
  writeFile fs filepath (ser data)

instance {σ τ : Type} [DecidableEq σ] [DecidableEq τ] : DecidableEq (Except σ τ) := fun a b =>
  match a, b with
  | .ok x, .ok y => if h : x = y then .isTrue (by rw [h]) else .isFalse (by simp [h])
  | .error x, .error y => if h : x = y then .isTrue (by rw [h]) else .isFalse (by simp [h])
  | .ok _, .error _ => .isFalse (by simp)
  | .error _, .ok _ => .isFalse (by simp)

/-- The observable outcome of one call of the wrapped function: the
returned value or escaping error, the final file-system state, and the
list of arguments the producer was invoked with during the call. -/
structure RunResult (γ α β ε : Type) where
  ret : Except (Err ε) α
  fs : FS β
  calledWith : List γ
  deriving DecidableEq

/-- io.py lines 49-54: the body of `run_func` after the directory step.
`if use_cache and os.path.exists(filepath): return load_pickle(filepath)`,
otherwise `result = func(*args); dump_pickle(result, filepath); return result`. -/
def run_body (ser : α → β) (deser : β → α) (filepath : String) (use_cache : Bool)
    (func : γ → Except ε α) (arg : γ) (fs₁ : FS β) : RunResult γ α β ε :=
  if use_cache = true ∧ os_path_exists fs₁ filepath then
    match load_pickle deser filepath fs₁ with
    | .ok v => ⟨.ok v, fs₁, []⟩
    | .error e => ⟨.error (.storage e), fs₁, []⟩
  else
    match func arg with
    | .error e => ⟨.error (.producer e), fs₁, [arg]⟩
    | .ok r =>
      match dump_pickle ser r filepath fs₁ with
      | .ok fs₂ => ⟨.ok r, fs₂, [arg]⟩
      | .error e => ⟨.error (.storage e), fs₁, [arg]⟩

/-- io.py lines 44-54: one call of the wrapped function `run_func`.
First `dst_dir = filepath.rsplit("/", 1)[0]` is created when absent
(lines 45-47), then the cached entry is returned on a reuse hit, else the
producer runs and its result is dumped (lines 49-54). -/
def run_func (ser : α → β) (deser : β → α) (filepath : String) (use_cache : Bool)
    (func : γ → Except ε α) (arg : γ) (fs : FS β) : RunResult γ α β ε :=
  match ensure_dir (dstDir filepath) fs with
  | .error e => ⟨.error (.storage e), fs, []⟩
  | .ok fs₁ => run_body ser deser filepath use_cache func arg fs₁

/-- io.py lines 23-58 (`save_cache`): the decorator returns the wrapped
function `run_func` closed over `filepath` and `use_cache`. -/
def save_cache (ser : α → β) (deser : β → α) (filepath : String) (use_cache : Bool)
    (func : γ → Except ε α) : γ → FS β → RunResult γ α β ε :=
  fun arg fs => run_func ser deser filepath use_cache func arg fs

/-- A sequence of wrapped-function calls against the same storage location:
each step supplies the reuse flag, the producer, and the argument, and the
file-system state is threaded through. -/
def runSeq (ser : α → β) (deser : β → α) (filepath : String) :
    List (Bool × (γ → Except ε α) × γ) → FS β → FS β
  | [], fs => fs
  | (u, f, x) :: rest, fs =>
    runSeq ser deser filepath rest (save_cache ser deser filepath u f x fs).fs

/-- Identity coding of `Nat` values: a sample serializer for exercising the
theorems on concrete inputs. -/
def idN : Nat → Nat := fun n => n

/-- A producer that always returns `v`, never raising. -/
def prodC (v : Nat) : Nat → Except Unit Nat := fun _ => .ok v

/-- A producer that always raises. -/
def prodE : Nat → Except Unit Nat := fun _ => .error ()

/-- The empty file system. -/
def fs0 : FS Nat := ⟨[], []⟩

theorem lookupF_insertFile_self (p : String) (b : β) (l : List (String × β)) :
    lookupF p (insertFile p b l) = some b := by
  induction l with
  | nil => simp [insertFile, lookupF]
  | cons hd tl ih =>
    obtain ⟨q, c⟩ := hd
    by_cases h : q = p
    · simp [insertFile, lookupF, h]
    · simp [insertFile, lookupF, h, ih]

theorem lookupF_insertFile_ne (p q : String) (b : β) (l : List (String × β)) (h : q ≠ p) :
    lookupF q (insertFile p b l) = lookupF q l := by
  induction l with
  | nil => simp [insertFile, lookupF, Ne.symm h]
  | cons hd tl ih =>
    obtain ⟨q', c⟩ := hd
    by_cases hq : q' = p
    · subst hq
      simp [insertFile, lookupF, Ne.symm h]
    · by_cases hq2 : q' = q
      · subst hq2
        simp [insertFile, lookupF, hq]
      · simp [insertFile, lookupF, hq, hq2, ih]

theorem mem_keys_insertFile (p x : String) (b : β) (l : List (String × β))
    (hx : x ∈ (insertFile p b l).map Prod.fst) : x = p ∨ x ∈ l.map Prod.fst := by
  induction l with
  | nil => simpa [insertFile] using hx
  | cons hd tl ih =>
    obtain ⟨q, c⟩ := hd
    by_cases h : q = p
    · subst h
      rw [show insertFile q b ((q, c) :: tl) = (q, b) :: tl from by simp [insertFile]] at hx
      simp only [List.map_cons, List.mem_cons] at hx ⊢
      tauto
    · simp only [insertFile, if_neg h, List.map_cons, List.mem_cons] at hx ⊢
      rcases hx with h1 | h2
      · exact Or.inr (Or.inl h1)
      · rcases ih h2 with h3 | h4
        · exact Or.inl h3
        · exact Or.inr (Or.inr h4)

theorem nodup_keys_insertFile (p : String) (b : β) (l : List (String × β))
    (h : (l.map Prod.fst).Nodup) : ((insertFile p b l).map Prod.fst).Nodup := by
  induction l with
  | nil => simp [insertFile]
  | cons hd tl ih =>
    obtain ⟨q, c⟩ := hd
    simp only [List.map_cons, List.nodup_cons] at h
    by_cases hq : q = p
    · subst hq
      simpa [insertFile] using h
    · simp only [insertFile, if_neg hq, List.map_cons, List.nodup_cons]
      refine ⟨?_, ih h.2⟩
      intro hmem
      rcases mem_keys_insertFile p q b tl hmem with h1 | h2
      · exact hq h1
      · exact h.1 h2

theorem dstDir_data_length_lt {s : String} (h : '/' ∈ s.data) :
    (dstDir s).data.length < s.data.length := by
  unfold dstDir
  rw [if_pos h]
  show ((s.data.reverse.dropWhile (fun c => c != '/')).tail.reverse).length < s.data.length
  have h0 : 0 < s.data.length := by
    have : s.data ≠ [] := by
      intro hnil
      rw [hnil] at h
      simp at h
    exact List.length_pos.mpr this
  have h1 : s.data.reverse.dropWhile (fun c => c != '/') ≠ [] := by
    intro hnil
    have hall := List.dropWhile_eq_nil_iff.mp hnil '/' (List.mem_reverse.mpr h)
    simp at hall
  have h2 : (s.data.reverse.dropWhile (fun c => c != '/')).length ≤ s.data.length := by
    have := (List.dropWhile_sublist (l := s.data.reverse) (fun c => c != '/')).length_le
    simpa using this
  have h3 : 0 < (s.data.reverse.dropWhile (fun c => c != '/')).length :=
    List.length_pos.mpr h1
  rw [List.length_reverse, List.length_tail]
  omega

theorem dstDir_ne_self {s : String} (h : '/' ∈ s.data) : dstDir s ≠ s := by
  intro he
  have hlt := dstDir_data_length_lt h
  rw [he] at hlt
  omega

theorem dstDir_no_slash {s : String} (h : '/' ∉ s.data) : dstDir s = s := by
  unfold dstDir
  rw [if_neg h]

theorem mem_dirChain_length {d x : String} (hx : x ∈ dirChain d) :
    x.data.length ≤ d.data.length := by
  unfold dirChain at hx
  rcases List.mem_append.mp hx with h1 | h2
  · obtain ⟨i, _, hf⟩ := List.mem_filterMap.mp h1
    by_cases hc : d.data[i]? = some '/'
    · rw [if_pos hc, Option.some.injEq] at hf
      rw [← hf]
      show (d.data.take i).length ≤ d.data.length
      simp [List.length_take]
    · rw [if_neg hc] at hf
      exact absurd hf (by simp)
  · have : x = d := by simpa using h2
    rw [this]

theorem self_mem_dirChain (d : String) : d ∈ dirChain d := by
  unfold dirChain
  exact List.mem_append.mpr (Or.inr (by simp))

theorem not_mem_dirChain_dstDir {s : String} (h : '/' ∈ s.data) :
    s ∉ dirChain (dstDir s) := by
  intro hm
  have h1 := mem_dirChain_length hm
  have h2 := dstDir_data_length_lt h
  omega

theorem ensure_dir_files {d : String} {fs fs₁ : FS β} (h : ensure_dir d fs = .ok fs₁) :
    fs₁.files = fs.files := by
  unfold ensure_dir os_makedirs at h
  split at h
  · simp only [Except.ok.injEq] at h
    rw [← h]
  · split at h
    · simp at h
    · simp only [Except.ok.injEq] at h
      rw [← h]

theorem run_func_split (ser : α → β) (deser : β → α) (loc : String) (u : Bool)
    (f : γ → Except ε α) (x : γ) (fs : FS β) (hd : dstDir loc ≠ "") :
    ∃ fs₁ : FS β,
      ensure_dir (dstDir loc) fs = .ok fs₁ ∧
      fs₁.files = fs.files ∧
      (fs₁.dirs = fs.dirs ∨ fs₁.dirs = dirChain (dstDir loc) ++ fs.dirs) ∧
      ((lookupF (dstDir loc) fs.files).isSome = true ∨ dstDir loc ∈ fs₁.dirs) ∧
      (¬ os_path_exists fs (dstDir loc) → fs₁.dirs = dirChain (dstDir loc) ++ fs.dirs) ∧
      run_func ser deser loc u f x fs = run_body ser deser loc u f x fs₁ := by
  by_cases hE : os_path_exists fs (dstDir loc)
  · refine ⟨fs, ?_, rfl, Or.inl rfl, ?_, fun hn => absurd hE hn, ?_⟩
    · simp [ensure_dir, hE]
    · rcases hE with h1 | h2
      · exact Or.inl h1
      · exact Or.inr h2
    · simp [run_func, ensure_dir, hE]
  · refine ⟨⟨fs.files, dirChain (dstDir loc) ++ fs.dirs⟩, ?_, rfl, Or.inr rfl, ?_,
      fun _ => rfl, ?_⟩
    · simp [ensure_dir, hE, os_makedirs, hd]
    · exact Or.inr (List.mem_append.mpr (Or.inl (self_mem_dirChain _)))
    · simp [run_func, ensure_dir, hE, os_makedirs, hd]

theorem run_body_hit {fs₁ : FS β} {loc : String} {b : β} (ser : α → β) (deser : β → α)
    (f : γ → Except ε α) (x : γ) (hb : lookupF loc fs₁.files = some b) :
    run_body ser deser loc true f x fs₁ = ⟨.ok (deser b), fs₁, []⟩ := by
  have hex : os_path_exists fs₁ loc := Or.inl (by rw [hb]; rfl)
  simp [run_body, hex, load_pickle, readFile, hb, Except.map]

theorem writeFile_ok {fs : FS β} {p : String} (b : β)
    (h1 : p ∉ fs.dirs) (h2 : lookupF (dstDir p) fs.files = none) (h3 : dstDir p ∈ fs.dirs) :
    writeFile fs p b = .ok ⟨insertFile p b fs.files, fs.dirs⟩ := by
  unfold writeFile
  rw [if_neg h1, if_neg (by simp [h2]), if_neg (by simp [h3])]

theorem run_body_miss_ok {fs₁ fs₂ : FS β} {loc : String} {r : α} (ser : α → β)
    (deser : β → α) (u : Bool) (f : γ → Except ε α) (x : γ)
    (hm : ¬ (u = true ∧ os_path_exists fs₁ loc)) (hf : f x = .ok r)
    (hw : dump_pickle ser r loc fs₁ = .ok fs₂) :
    run_body ser deser loc u f x fs₁ = ⟨.ok r, fs₂, [x]⟩ := by
  unfold run_body
  rw [if_neg hm, hf]
  simp only [hw]

theorem run_body_miss_producer_error {fs₁ : FS β} {loc : String} {e : ε} (ser : α → β)
    (deser : β → α) (u : Bool) (f : γ → Except ε α) (x : γ)
    (hm : ¬ (u = true ∧ os_path_exists fs₁ loc)) (hf : f x = .error e) :
    run_body ser deser loc u f x fs₁ = ⟨.error (.producer e), fs₁, [x]⟩ := by
  unfold run_body
  rw [if_neg hm, hf]

theorem run_body_miss_write_error {fs₁ : FS β} {loc : String} {r : α} {e : StorageErr}
    (ser : α → β) (deser : β → α) (u : Bool) (f : γ → Except ε α) (x : γ)
    (hm : ¬ (u = true ∧ os_path_exists fs₁ loc)) (hf : f x = .ok r)
    (hw : dump_pickle ser r loc fs₁ = .error e) :
    run_body ser deser loc u f x fs₁ = ⟨.error (.storage e), fs₁, [x]⟩ := by
  unfold run_body
  rw [if_neg hm, hf]
  simp only [hw]

theorem run_func_miss_write (ser : α → β) (deser : β → α) (loc : String) (u : Bool)
    (f : γ → Except ε α) (x : γ) (r : α) (fs : FS β)
    (hslash : '/' ∈ loc.data) (hd : dstDir loc ≠ "") (hnd : loc ∉ fs.dirs)
    (hpar : lookupF (dstDir loc) fs.files = none)
    (hmiss : u = false ∨ lookupF loc fs.files = none)
    (hf : f x = .ok r) :
    ∃ ds : List String,
      run_func ser deser loc u f x fs =
        ⟨.ok r, ⟨insertFile loc (ser r) fs.files, ds⟩, [x]⟩ ∧
      (ds = fs.dirs ∨ ds = dirChain (dstDir loc) ++ fs.dirs) ∧
      dstDir loc ∈ ds ∧
      (¬ os_path_exists fs (dstDir loc) → ds = dirChain (dstDir loc) ++ fs.dirs) ∧
      loc ∉ ds := by
  obtain ⟨fs₁, hE, hfiles, hdirs, hpar1, hmk, hrun⟩ := run_func_split ser deser loc u f x fs hd
  have hnd1 : loc ∉ fs₁.dirs := by
    rcases hdirs with hcase | hcase <;> rw [hcase]
    · exact hnd
    · intro hmem
      rcases List.mem_append.mp hmem with hm1 | hm2
      · exact not_mem_dirChain_dstDir hslash hm1
      · exact hnd hm2
  have hmem : dstDir loc ∈ fs₁.dirs := by
    rcases hpar1 with hcase | hcase
    · rw [hpar] at hcase
      simp at hcase
    · exact hcase
  have hm : ¬ (u = true ∧ os_path_exists fs₁ loc) := by
    rintro ⟨hu, hex⟩
    rcases hmiss with hcase | hcase
    · rw [hcase] at hu
      cases hu
    · rcases hex with h1 | h2
      · rw [hfiles, hcase] at h1
        simp at h1
      · exact hnd1 h2
  have hw : dump_pickle ser r loc fs₁ = .ok ⟨insertFile loc (ser r) fs₁.files, fs₁.dirs⟩ :=
    writeFile_ok _ hnd1 (by rw [hfiles]; exact hpar) hmem
  refine ⟨fs₁.dirs, ?_, hdirs, hmem, hmk, hnd1⟩
  rw [hrun, run_body_miss_ok ser deser u f x hm hf hw, hfiles]

theorem writeFile_files {fs fs₂ : FS β} {p : String} {b : β}
    (h : writeFile fs p b = .ok fs₂) :
    fs₂.files = insertFile p b fs.files ∧ fs₂.dirs = fs.dirs := by
  unfold writeFile at h
  split at h
  · simp at h
  · split at h
    · simp at h
    · split at h
      · simp at h
      · simp only [Except.ok.injEq] at h
        rw [← h]
        exact ⟨rfl, rfl⟩

theorem run_func_eq_body {loc : String} {u : Bool} {fs fs₁ : FS β} (ser : α → β)
    (deser : β → α) (f : γ → Except ε α) (x : γ)
    (hE : ensure_dir (dstDir loc) fs = .ok fs₁) :
    run_func ser deser loc u f x fs = run_body ser deser loc u f x fs₁ := by
  unfold run_func
  rw [hE]

theorem run_func_eq_error {loc : String} {u : Bool} {fs : FS β} {e : StorageErr}
    (ser : α → β) (deser : β → α) (f : γ → Except ε α) (x : γ)
    (hE : ensure_dir (dstDir loc) fs = .error e) :
    run_func ser deser loc u f x fs = ⟨.error (.storage e), fs, []⟩ := by
  unfold run_func
  rw [hE]

theorem run_body_hit_dir {fs₁ : FS β} {loc : String} (ser : α → β) (deser : β → α)
    (f : γ → Except ε α) (x : γ) (hdir : loc ∈ fs₁.dirs)
    (hb : lookupF loc fs₁.files = none) :
    run_body ser deser loc true f x fs₁ =
      ⟨.error (.storage (.isADirectory loc)), fs₁, []⟩ := by
  have hex : os_path_exists fs₁ loc := Or.inr hdir
  unfold run_body
  rw [if_pos ⟨rfl, hex⟩]
  simp [load_pickle, readFile, hb, hdir, Except.map]

theorem run_func_calledWith (ser : α → β) (deser : β → α) (loc : String) (u : Bool)
    (f : γ → Except ε α) (x : γ) (fs : FS β) :
    (run_func ser deser loc u f x fs).calledWith = [] ∨
    (run_func ser deser loc u f x fs).calledWith = [x] := by
  cases hE : ensure_dir (dstDir loc) fs with
  | error e =>
    rw [run_func_eq_error ser deser f x hE]
    exact Or.inl rfl
  | ok fs₁ =>
    rw [run_func_eq_body ser deser f x hE]
    by_cases hm : (u = true ∧ os_path_exists fs₁ loc)
    · obtain ⟨hu, hex⟩ := hm
      subst hu
      cases hb : lookupF loc fs₁.files with
      | some b =>
        rw [run_body_hit ser deser f x hb]
        exact Or.inl rfl
      | none =>
        have hdir : loc ∈ fs₁.dirs := by
          rcases hex with h1 | h2
          · rw [hb] at h1
            simp at h1
          · exact h2
        rw [run_body_hit_dir ser deser f x hdir hb]
        exact Or.inl rfl
    · cases hf : f x with
      | error e =>
        rw [run_body_miss_producer_error ser deser u f x hm hf]
        exact Or.inr rfl
      | ok r =>
        cases hw : dump_pickle ser r loc fs₁ with
        | ok fs₂ =>
          rw [run_body_miss_ok ser deser u f x hm hf hw]
          exact Or.inr rfl
        | error e =>
          rw [run_body_miss_write_error ser deser u f x hm hf hw]
          exact Or.inr rfl

theorem files_after_run (ser : α → β) (deser : β → α) (loc : String) (u : Bool)
    (f : γ → Except ε α) (x : γ) (fs : FS β) :
    (run_func ser deser loc u f x fs).fs.files = fs.files ∨
    ∃ r, f x = .ok r ∧
      (run_func ser deser loc u f x fs).fs.files = insertFile loc (ser r) fs.files ∧
      (run_func ser deser loc u f x fs).ret = .ok r := by
  cases hE : ensure_dir (dstDir loc) fs with
  | error e =>
    rw [run_func_eq_error ser deser f x hE]
    exact Or.inl rfl
  | ok fs₁ =>
    have hfiles := ensure_dir_files hE
    rw [run_func_eq_body ser deser f x hE]
    by_cases hm : (u = true ∧ os_path_exists fs₁ loc)
    · obtain ⟨hu, hex⟩ := hm
      subst hu
      cases hb : lookupF loc fs₁.files with
      | some b =>
        rw [run_body_hit ser deser f x hb]
        exact Or.inl hfiles
      | none =>
        have hdir : loc ∈ fs₁.dirs := by
          rcases hex with h1 | h2
          · rw [hb] at h1
            simp at h1
          · exact h2
        rw [run_body_hit_dir ser deser f x hdir hb]
        exact Or.inl hfiles
    · cases hf : f x with
      | error e =>
        rw [run_body_miss_producer_error ser deser u f x hm hf]
        exact Or.inl hfiles
      | ok r =>
        cases hw : dump_pickle ser r loc fs₁ with
        | error e =>
          rw [run_body_miss_write_error ser deser u f x hm hf hw]
          exact Or.inl hfiles
        | ok fs₂ =>
          rw [run_body_miss_ok ser deser u f x hm hf hw]
          refine Or.inr ⟨r, rfl, ?_, rfl⟩
          have h2 := (writeFile_files hw).1
          show fs₂.files = insertFile loc (ser r) fs.files
          rw [h2, hfiles]

/-- C1: For every producer and every location, a call to the function wrapped by
`save_cache` invokes the producer at most once; and when the reuse flag is true
and a cache entry already exists at the location (with the location's computed
parent-directory string non-empty, so that `os.makedirs` cannot fail), the
producer is not invoked at all and the call returns the deserialized on-disk
entry. -/
theorem save_cache_producer_at_most_once (ser : α → β) (deser : β → α) (loc : String)
    (u : Bool) (f : γ → Except ε α) (x : γ) (fs : FS β) (b : β) :
    (save_cache ser deser loc u f x fs).calledWith.length ≤ 1 ∧
    (u = true → lookupF loc fs.files = some b → dstDir loc ≠ "" →
      (save_cache ser deser loc u f x fs).calledWith = [] ∧
      (save_cache ser deser loc u f x fs).ret = .ok (deser b)) := by
  constructor
  · rcases run_func_calledWith ser deser loc u f x fs with h | h <;>
      simp [save_cache, h]
  · intro hu hb hd
    subst hu
    obtain ⟨fs₁, _, hfiles, _, _, _, hrun⟩ := run_func_split ser deser loc true f x fs hd
    have hb1 : lookupF loc fs₁.files = some b := by
      rw [hfiles]
      exact hb
    simp only [save_cache]
    rw [hrun, run_body_hit ser deser f x hb1]
    exact ⟨rfl, rfl⟩

theorem save_cache_producer_at_most_once_witness :
    (save_cache idN idN "d/f" true (prodC 5) 0 ⟨[("d/f", 9)], ["d"]⟩).calledWith = [] ∧
    (save_cache idN idN "d/f" true (prodC 5) 0 ⟨[("d/f", 9)], ["d"]⟩).ret = .ok 9 :=
  (save_cache_producer_at_most_once idN idN "d/f" true (prodC 5) 0
    ⟨[("d/f", 9)], ["d"]⟩ 9).2 rfl (by decide) (by decide)

/-- C2: For every producer `P` and location `L` (a proper path whose parent
string is non-empty, is not an existing directory or file, and such that `L`
itself is not an existing directory), when the reuse flag is false, every call
of the wrapped function invokes `P` exactly once with the caller's argument
passed through unchanged, serializes `P`'s result to `L` overwriting any
existing entry, and returns that result; calling the wrapped function twice
invokes the producers twice and overwrites `L`'s entry each time. -/
theorem save_cache_no_reuse_recomputes (ser : α → β) (deser : β → α) (loc : String)
    (f g : γ → Except ε α) (x y : γ) (r s : α) (fs : FS β)
    (hslash : '/' ∈ loc.data) (hd : dstDir loc ≠ "") (hnd : loc ∉ fs.dirs)
    (hpar : lookupF (dstDir loc) fs.files = none)
    (hf : f x = .ok r) (hg : g y = .ok s) :
    (save_cache ser deser loc false f x fs).calledWith = [x] ∧
    (save_cache ser deser loc false f x fs).ret = .ok r ∧
    lookupF loc (save_cache ser deser loc false f x fs).fs.files = some (ser r) ∧
    (save_cache ser deser loc false g y
        (save_cache ser deser loc false f x fs).fs).calledWith = [y] ∧
    (save_cache ser deser loc false g y
        (save_cache ser deser loc false f x fs).fs).ret = .ok s ∧
    lookupF loc (save_cache ser deser loc false g y
        (save_cache ser deser loc false f x fs).fs).fs.files = some (ser s) := by
  obtain ⟨ds, hrun, _, _, _, hnds⟩ :=
    run_func_miss_write ser deser loc false f x r fs hslash hd hnd hpar (Or.inl rfl) hf
  simp only [save_cache]
  rw [hrun]
  have hpar2 : lookupF (dstDir loc) (insertFile loc (ser r) fs.files) = none := by
    rw [lookupF_insertFile_ne loc (dstDir loc) (ser r) fs.files (dstDir_ne_self hslash)]
    exact hpar
  obtain ⟨ds2, hrun2, _, _, _, _⟩ :=
    run_func_miss_write ser deser loc false g y s ⟨insertFile loc (ser r) fs.files, ds⟩
      hslash hd hnds hpar2 (Or.inl rfl) hg
  rw [hrun2]
  exact ⟨rfl, rfl, lookupF_insertFile_self loc (ser r) fs.files, rfl, rfl,
    lookupF_insertFile_self loc (ser s) (insertFile loc (ser r) fs.files)⟩

theorem save_cache_no_reuse_recomputes_witness :
    (save_cache idN idN "out/a.bin" false (prodC 42) 0 fs0).calledWith = [0] ∧
    (save_cache idN idN "out/a.bin" false (prodC 42) 0 fs0).ret = .ok 42 ∧
    lookupF "out/a.bin"
      (save_cache idN idN "out/a.bin" false (prodC 42) 0 fs0).fs.files = some 42 ∧
    (save_cache idN idN "out/a.bin" false (prodC 7) 0
        (save_cache idN idN "out/a.bin" false (prodC 42) 0 fs0).fs).calledWith = [0] ∧
    (save_cache idN idN "out/a.bin" false (prodC 7) 0
        (save_cache idN idN "out/a.bin" false (prodC 42) 0 fs0).fs).ret = .ok 7 ∧
    lookupF "out/a.bin" (save_cache idN idN "out/a.bin" false (prodC 7) 0
        (save_cache idN idN "out/a.bin" false (prodC 42) 0 fs0).fs).fs.files = some 7 :=
  save_cache_no_reuse_recomputes idN idN "out/a.bin" (prodC 42) (prodC 7) 0 0 42 7 fs0
    (by decide) (by decide) (by decide) (by decide) rfl rfl

/-- C3: For every producer `P` and proper-path location `L` with the reuse flag
true: after a first call populates `L`, every subsequent call does not invoke
`P` and returns a value equal to the first call's result (given that
serialization round-trips on that result), the same value every time, with no
side effects beyond the initial population: the file-system state is a fixed
point of further calls. -/
theorem save_cache_reuse_idempotent (ser : α → β) (deser : β → α) (loc : String)
    (f : γ → Except ε α) (x : γ) (r : α) (fs : FS β)
    (hslash : '/' ∈ loc.data) (hd : dstDir loc ≠ "") (hnd : loc ∉ fs.dirs)
    (hpar : lookupF (dstDir loc) fs.files = none)
    (hmiss : lookupF loc fs.files = none)
    (hf : f x = .ok r) (hrt : deser (ser r) = r) :
    (save_cache ser deser loc true f x fs).ret = .ok r ∧
    (save_cache ser deser loc true f x fs).calledWith = [x] ∧
    save_cache ser deser loc true f x (save_cache ser deser loc true f x fs).fs =
      ⟨.ok r, (save_cache ser deser loc true f x fs).fs, []⟩ ∧
    ∀ n : Nat, (fun st => (save_cache ser deser loc true f x st).fs)^[n]
        (save_cache ser deser loc true f x fs).fs =
      (save_cache ser deser loc true f x fs).fs := by
  obtain ⟨ds, hrun, _, hmem, _, _⟩ :=
    run_func_miss_write ser deser loc true f x r fs hslash hd hnd hpar (Or.inr hmiss) hf
  simp only [save_cache]
  rw [hrun]
  have hE2 : ensure_dir (dstDir loc) ⟨insertFile loc (ser r) fs.files, ds⟩ =
      .ok ⟨insertFile loc (ser r) fs.files, ds⟩ := by
    have hex : os_path_exists (⟨insertFile loc (ser r) fs.files, ds⟩ : FS β) (dstDir loc) :=
      Or.inr hmem
    simp [ensure_dir, hex]
  have hb : lookupF loc (insertFile loc (ser r) fs.files) = some (ser r) :=
    lookupF_insertFile_self loc (ser r) fs.files
  have hsecond : run_func ser deser loc true f x ⟨insertFile loc (ser r) fs.files, ds⟩ =
      ⟨.ok (deser (ser r)), ⟨insertFile loc (ser r) fs.files, ds⟩, []⟩ := by
    rw [run_func_eq_body ser deser f x hE2, run_body_hit ser deser f x hb]
  rw [hrt] at hsecond
  refine ⟨rfl, rfl, hsecond, ?_⟩
  intro n
  exact Function.iterate_fixed (congrArg RunResult.fs hsecond) n

theorem save_cache_reuse_idempotent_witness :
    save_cache idN idN "out/a.bin" true (prodC 42) 0
        (save_cache idN idN "out/a.bin" true (prodC 42) 0 fs0).fs =
      ⟨.ok 42, (save_cache idN idN "out/a.bin" true (prodC 42) 0 fs0).fs, []⟩ ∧
    (fun st => (save_cache idN idN "out/a.bin" true (prodC 42) 0 st).fs)^[3]
        (save_cache idN idN "out/a.bin" true (prodC 42) 0 fs0).fs =
      (save_cache idN idN "out/a.bin" true (prodC 42) 0 fs0).fs :=
  ⟨(save_cache_reuse_idempotent idN idN "out/a.bin" (prodC 42) 0 42 fs0 (by decide)
      (by decide) (by decide) (by decide) (by decide) rfl rfl).2.2.1,
    (save_cache_reuse_idempotent idN idN "out/a.bin" (prodC 42) 0 42 fs0 (by decide)
      (by decide) (by decide) (by decide) (by decide) rfl rfl).2.2.2 3⟩

/-- C4: For every proper-path location (containing '/', with non-empty parent
string) whose parent directory does not exist and at which no entry exists,
calling the wrapped function succeeds (the producer's value is returned) and
creates the parent directory, recursively creating the whole ancestor chain. -/
theorem save_cache_creates_parent_dirs (ser : α → β) (deser : β → α) (loc : String)
    (u : Bool) (f : γ → Except ε α) (x : γ) (r : α) (fs : FS β)
    (hslash : '/' ∈ loc.data) (hd : dstDir loc ≠ "")
    (hnopar : ¬ os_path_exists fs (dstDir loc))
    (hnd : loc ∉ fs.dirs) (hmiss : lookupF loc fs.files = none)
    (hf : f x = .ok r) :
    (save_cache ser deser loc u f x fs).ret = .ok r ∧
    dstDir loc ∈ (save_cache ser deser loc u f x fs).fs.dirs ∧
    ∀ p ∈ dirChain (dstDir loc), p ∈ (save_cache ser deser loc u f x fs).fs.dirs := by
  have hpar : lookupF (dstDir loc) fs.files = none := by
    cases hcase : lookupF (dstDir loc) fs.files with
    | none => rfl
    | some c => exact absurd (Or.inl (by rw [hcase]; rfl)) hnopar
  obtain ⟨ds, hrun, _, hmem, hch, _⟩ :=
    run_func_miss_write ser deser loc u f x r fs hslash hd hnd hpar (Or.inr hmiss) hf
  simp only [save_cache]
  rw [hrun]
  refine ⟨rfl, hmem, ?_⟩
  intro p hp
  show p ∈ ds
  rw [hch hnopar]
  exact List.mem_append.mpr (Or.inl hp)

theorem save_cache_creates_parent_dirs_witness :
    (save_cache idN idN "out/a.bin" false (prodC 42) 0 fs0).ret = .ok 42 ∧
    dstDir "out/a.bin" ∈ (save_cache idN idN "out/a.bin" false (prodC 42) 0 fs0).fs.dirs ∧
    "out" ∈ (save_cache idN idN "out/a.bin" false (prodC 42) 0 fs0).fs.dirs :=
  ⟨(save_cache_creates_parent_dirs idN idN "out/a.bin" false (prodC 42) 0 42 fs0
      (by decide) (by decide) (by decide) (by decide) (by decide) rfl).1,
    (save_cache_creates_parent_dirs idN idN "out/a.bin" false (prodC 42) 0 42 fs0
      (by decide) (by decide) (by decide) (by decide) (by decide) rfl).2.1,
    (save_cache_creates_parent_dirs idN idN "out/a.bin" false (prodC 42) 0 42 fs0
      (by decide) (by decide) (by decide) (by decide) (by decide) rfl).2.2 "out" (by decide)⟩

/-- C5: For every sequence of wrapped-function calls targeting the same storage
location, at most one artifact is associated with that location at a time (the
file table keeps unique keys across any sequence of calls), and every write is
a whole-file replacement of the entry: a call either leaves the file table
unchanged or replaces the entry at the location with the full serialization of
the producer's result, never a partial update. -/
theorem save_cache_single_artifact_invariant (ser : α → β) (deser : β → α) (loc : String) :
    (∀ (u : Bool) (f : γ → Except ε α) (x : γ) (fs : FS β),
      (save_cache ser deser loc u f x fs).fs.files = fs.files ∨
      ∃ r, f x = .ok r ∧
        (save_cache ser deser loc u f x fs).fs.files = insertFile loc (ser r) fs.files ∧
        (save_cache ser deser loc u f x fs).ret = .ok r) ∧
    (∀ (steps : List (Bool × (γ → Except ε α) × γ)) (fs : FS β),
      (fs.files.map Prod.fst).Nodup →
      ((runSeq ser deser loc steps fs).files.map Prod.fst).Nodup) := by
  constructor
  · intro u f x fs
    simp only [save_cache]
    exact files_after_run ser deser loc u f x fs
  · intro steps
    induction steps with
    | nil =>
      intro fs h
      exact h
    | cons step rest ih =>
      intro fs h
      obtain ⟨u, f, x⟩ := step
      have hstep : ((save_cache ser deser loc u f x fs).fs.files.map Prod.fst).Nodup := by
        rcases files_after_run ser deser loc u f x fs with hc | ⟨r, _, hc, _⟩
        · have hc2 : (save_cache ser deser loc u f x fs).fs.files = fs.files := hc
          rw [hc2]
          exact h
        · have hc2 : (save_cache ser deser loc u f x fs).fs.files =
              insertFile loc (ser r) fs.files := hc
          rw [hc2]
          exact nodup_keys_insertFile loc (ser r) fs.files h
      show ((runSeq ser deser loc rest (save_cache ser deser loc u f x fs).fs).files.map
        Prod.fst).Nodup
      exact ih (save_cache ser deser loc u f x fs).fs hstep

theorem save_cache_single_artifact_invariant_witness :
    ((runSeq idN idN "d/f" [(false, prodC 1, 0), (true, prodC 2, 0), (false, prodE, 0)]
        fs0).files.map Prod.fst).Nodup :=
  (save_cache_single_artifact_invariant idN idN "d/f").2
    [(false, prodC 1, 0), (true, prodC 2, 0), (false, prodE, 0)] fs0 (by decide)

/-- C6: For every producer that raises an exception, when the producer is
reached (the reuse branch is not taken and the parent-directory string is
non-empty so directory creation cannot fail), the wrapped call raises that same
exception to the caller, unchanged, and the producer is invoked exactly once,
without retrying. -/
theorem save_cache_propagates_producer_error (ser : α → β) (deser : β → α) (loc : String)
    (u : Bool) (f : γ → Except ε α) (x : γ) (e : ε) (fs : FS β)
    (hd : dstDir loc ≠ "")
    (hmiss : u = false ∨ (lookupF loc fs.files = none ∧ loc ∉ fs.dirs ∧ '/' ∈ loc.data))
    (hf : f x = .error e) :
    (save_cache ser deser loc u f x fs).ret = .error (.producer e) ∧
    (save_cache ser deser loc u f x fs).calledWith = [x] := by
  obtain ⟨fs₁, _, hfiles, hdirs, _, _, hrun⟩ := run_func_split ser deser loc u f x fs hd
  have hm : ¬ (u = true ∧ os_path_exists fs₁ loc) := by
    rintro ⟨hu, hex⟩
    rcases hmiss with hcase | ⟨hn, hnd, hslash⟩
    · rw [hcase] at hu
      cases hu
    · rcases hex with h1 | h2
      · rw [hfiles, hn] at h1
        simp at h1
      · rcases hdirs with hc | hc
        · rw [hc] at h2
          exact hnd h2
        · rw [hc] at h2
          rcases List.mem_append.mp h2 with hm1 | hm2
          · exact not_mem_dirChain_dstDir hslash hm1
          · exact hnd hm2
  simp only [save_cache]
  rw [hrun, run_body_miss_producer_error ser deser u f x hm hf]
  exact ⟨rfl, rfl⟩

theorem save_cache_propagates_producer_error_witness :
    (save_cache idN idN "d/f" false prodE 0 fs0).ret = .error (.producer ()) ∧
    (save_cache idN idN "d/f" false prodE 0 fs0).calledWith = [0] :=
  save_cache_propagates_producer_error idN idN "d/f" false prodE 0 () fs0
    (by decide) (Or.inl rfl) rfl

/-- C7: Ensuring the parent directory exists (lines 45-47) happens before the
reuse/existence check (line 49): even a call that is served from the cache
first creates the missing parent-directory chain when it is absent. -/
theorem save_cache_dir_step_precedes_reuse_check (ser : α → β) (deser : β → α)
    (loc : String) (f : γ → Except ε α) (x : γ) (b : β) (fs : FS β)
    (hd : dstDir loc ≠ "") (hb : lookupF loc fs.files = some b)
    (hnopar : ¬ os_path_exists fs (dstDir loc)) :
    (save_cache ser deser loc true f x fs).ret = .ok (deser b) ∧
    (save_cache ser deser loc true f x fs).calledWith = [] ∧
    dstDir loc ∈ (save_cache ser deser loc true f x fs).fs.dirs ∧
    (save_cache ser deser loc true f x fs).fs.dirs =
      dirChain (dstDir loc) ++ fs.dirs := by
  have hE : ensure_dir (dstDir loc) fs =
      .ok ⟨fs.files, dirChain (dstDir loc) ++ fs.dirs⟩ := by
    simp [ensure_dir, hnopar, os_makedirs, hd]
  have hb1 : lookupF loc (⟨fs.files, dirChain (dstDir loc) ++ fs.dirs⟩ : FS β).files =
      some b := hb
  simp only [save_cache]
  rw [run_func_eq_body ser deser f x hE, run_body_hit ser deser f x hb1]
  exact ⟨rfl, rfl, List.mem_append.mpr (Or.inl (self_mem_dirChain _)), rfl⟩

theorem save_cache_dir_step_precedes_reuse_check_witness :
    (save_cache idN idN "d/f" true (prodC 5) 0 ⟨[("d/f", 9)], []⟩).ret = .ok 9 ∧
    (save_cache idN idN "d/f" true (prodC 5) 0 ⟨[("d/f", 9)], []⟩).calledWith = [] ∧
    dstDir "d/f" ∈ (save_cache idN idN "d/f" true (prodC 5) 0 ⟨[("d/f", 9)], []⟩).fs.dirs ∧
    (save_cache idN idN "d/f" true (prodC 5) 0 ⟨[("d/f", 9)], []⟩).fs.dirs =
      dirChain (dstDir "d/f") ++ [] :=
  save_cache_dir_step_precedes_reuse_check idN idN "d/f" (prodC 5) 0 9 ⟨[("d/f", 9)], []⟩
    (by decide) rfl (by decide)

/-- C9: For every producer that raises an exception, the cache entry at the
location is neither created nor modified by that call: the whole file table is
exactly what it was before the call (serialization happens only after the
producer returns successfully); only directories may have been created. -/
theorem save_cache_producer_error_preserves_entry (ser : α → β) (deser : β → α)
    (loc : String) (u : Bool) (f : γ → Except ε α) (x : γ) (e : ε) (fs : FS β)
    (hf : f x = .error e) :
    (save_cache ser deser loc u f x fs).fs.files = fs.files := by
  rcases files_after_run ser deser loc u f x fs with h | ⟨r, hr, _, _⟩
  · exact h
  · rw [hf] at hr
    cases hr

theorem save_cache_producer_error_preserves_entry_witness :
    (save_cache idN idN "d/f" false prodE 0 ⟨[("d/f", 3)], ["d"]⟩).fs.files =
      [("d/f", 3)] :=
  save_cache_producer_error_preserves_entry idN idN "d/f" false prodE 0 ()
    ⟨[("d/f", 3)], ["d"]⟩ rfl

/-- C10: On every cache miss (reuse false, or reuse true with no entry at the
location), the wrapped function returns the very value the producer computed in
memory, after writing its serialization to disk; the returned value does not
depend on the deserializer at all, so it is the producer's result even if
serialization would not round-trip it exactly. -/
theorem save_cache_miss_returns_producer_value (ser : α → β) (deser : β → α)
    (loc : String) (u : Bool) (f : γ → Except ε α) (x : γ) (r : α) (fs : FS β)
    (hslash : '/' ∈ loc.data) (hd : dstDir loc ≠ "") (hnd : loc ∉ fs.dirs)
    (hpar : lookupF (dstDir loc) fs.files = none)
    (hmiss : u = false ∨ lookupF loc fs.files = none)
    (hf : f x = .ok r) :
    (save_cache ser deser loc u f x fs).ret = .ok r ∧
    lookupF loc (save_cache ser deser loc u f x fs).fs.files = some (ser r) ∧
    ∀ deser2 : β → α, (save_cache ser deser2 loc u f x fs).ret = .ok r := by
  obtain ⟨ds, hrun, _, _, _, _⟩ :=
    run_func_miss_write ser deser loc u f x r fs hslash hd hnd hpar hmiss hf
  refine ⟨?_, ?_, ?_⟩
  · simp only [save_cache]
    rw [hrun]
  · simp only [save_cache]
    rw [hrun]
    exact lookupF_insertFile_self loc (ser r) fs.files
  · intro deser2
    obtain ⟨ds2, hrun2, _, _, _, _⟩ :=
      run_func_miss_write ser deser2 loc u f x r fs hslash hd hnd hpar hmiss hf
    simp only [save_cache]
    rw [hrun2]

theorem save_cache_miss_returns_producer_value_witness :
    (save_cache idN idN "out/a.bin" true (prodC 42) 0 fs0).ret = .ok 42 ∧
    (save_cache idN (fun _ => 0) "out/a.bin" true (prodC 42) 0 fs0).ret = .ok 42 :=
  ⟨(save_cache_miss_returns_producer_value idN idN "out/a.bin" true (prodC 42) 0 42 fs0
      (by decide) (by decide) (by decide) (by decide) (Or.inr rfl) rfl).1,
    (save_cache_miss_returns_producer_value idN idN "out/a.bin" true (prodC 42) 0 42 fs0
      (by decide) (by decide) (by decide) (by decide) (Or.inr rfl) rfl).2.2 (fun _ => 0)⟩

/-- C8 (amended): For every NON-EMPTY location string containing no '/'
separator, the wrapper treats the entire location string as the parent
directory: when no file-system entry of that name exists it creates a directory
named exactly like the location, and the call then fails with a storage error
when opening the location as a file (reading on a reuse hit, writing after the
producer returned otherwise); such a call never successfully stores or returns
a cache entry.  (For the empty location the claim as stated fails: `os.makedirs`
itself raises before any directory is created; see the counterexample.) -/
theorem save_cache_no_sep_location_fails (ser : α → β) (deser : β → α) (loc : String)
    (u : Bool) (f : γ → Except ε α) (x : γ) (fs : FS β)
    (hv : loc ≠ "") (hs : '/' ∉ loc.data) (hne : ¬ os_path_exists fs loc) :
    loc ∈ (save_cache ser deser loc u f x fs).fs.dirs ∧
    (save_cache ser deser loc u f x fs).fs.files = fs.files ∧
    (∀ v, (save_cache ser deser loc u f x fs).ret ≠ .ok v) ∧
    (u = true → (save_cache ser deser loc u f x fs).ret =
        .error (.storage (.isADirectory loc)) ∧
      (save_cache ser deser loc u f x fs).calledWith = []) ∧
    (u = false → ∀ r, f x = .ok r → (save_cache ser deser loc u f x fs).ret =
        .error (.storage (.isADirectory loc))) := by
  have hdst : dstDir loc = loc := dstDir_no_slash hs
  have hnf : lookupF loc fs.files = none := by
    cases hcase : lookupF loc fs.files with
    | none => rfl
    | some c => exact absurd (Or.inl (by rw [hcase]; rfl)) hne
  have hE : ensure_dir (dstDir loc) fs = .ok ⟨fs.files, dirChain loc ++ fs.dirs⟩ := by
    rw [hdst]
    simp [ensure_dir, hne, os_makedirs, hv]
  have hdir : loc ∈ (⟨fs.files, dirChain loc ++ fs.dirs⟩ : FS β).dirs :=
    List.mem_append.mpr (Or.inl (self_mem_dirChain loc))
  simp only [save_cache]
  rw [run_func_eq_body ser deser f x hE]
  cases u with
  | true =>
    rw [run_body_hit_dir ser deser f x hdir hnf]
    exact ⟨hdir, rfl, fun v hv2 => Except.noConfusion hv2,
      fun _ => ⟨rfl, rfl⟩, fun hu => Bool.noConfusion hu⟩
  | false =>
    have hm : ¬ (false = true ∧
        os_path_exists (⟨fs.files, dirChain loc ++ fs.dirs⟩ : FS β) loc) := by
      rintro ⟨hu, _⟩
      cases hu
    cases hfx : f x with
    | error e =>
      rw [run_body_miss_producer_error ser deser false f x hm hfx]
      refine ⟨hdir, rfl, fun v hv2 => Except.noConfusion hv2,
        fun hu => Bool.noConfusion hu, ?_⟩
      intro _ r hr
      exact Except.noConfusion hr
    | ok r =>
      have hw : dump_pickle ser r loc (⟨fs.files, dirChain loc ++ fs.dirs⟩ : FS β) =
          .error (.isADirectory loc) := by
        unfold dump_pickle writeFile
        rw [if_pos hdir]
      rw [run_body_miss_write_error ser deser false f x hm hfx hw]
      exact ⟨hdir, rfl, fun v hv2 => Except.noConfusion hv2,
        fun hu => Bool.noConfusion hu, fun _ _ _ => rfl⟩

theorem save_cache_no_sep_location_fails_witness :
    "nodir.pkl" ∈ (save_cache idN idN "nodir.pkl" true (prodC 5) 0 fs0).fs.dirs ∧
    (save_cache idN idN "nodir.pkl" true (prodC 5) 0 fs0).ret =
      .error (.storage (.isADirectory "nodir.pkl")) :=
  ⟨(save_cache_no_sep_location_fails idN idN "nodir.pkl" true (prodC 5) 0 fs0
      (by decide) (by decide) (by decide)).1,
    ((save_cache_no_sep_location_fails idN idN "nodir.pkl" true (prodC 5) 0 fs0
      (by decide) (by decide) (by decide)).2.2.2.1 rfl).1⟩

/-- C8 counterexample: at the empty location — a string containing no '/' —
the call fails already inside `os.makedirs` with `FileNotFoundError`: no
directory named like the location is ever created (the directory list stays
empty) and the failure does not arise from opening the location as a file, so
the claim as stated over all '/'-free strings is false at the empty string. -/
theorem save_cache_empty_location_refutes :
    (save_cache idN idN "" true (prodC 5) 0 fs0).fs.dirs = [] ∧
    (save_cache idN idN "" true (prodC 5) 0 fs0).ret =
      .error (.storage (.fileNotFound "")) := by
  constructor <;> rfl

end Mikasa
